import Mathlib

/-
Shallow embedding of src/modin/data_management/query_compiler/gandiva_query_compiler.py.

The file models:
  * the pandas-expression AST consumed by the compiler (Constant, Term,
    BinOp, UnaryOp, MathCall nodes),
  * the gandiva tree-expression builder output as an inductive tree,
  * build_node, can_be_condition, filter_with_selection_vector, gandiva_query
    from GandivaQueryCompiler.query,
  * sum_pyarrow_table and GandivaQueryCompiler.sum.

Machine floats are modelled as exact rationals; the numeric facts proved
below only involve small integer values, on which IEEE double arithmetic
is exact.  External engines (gandiva's filter evaluation, ray's remote
execution) are modelled as explicit function parameters / pure calls.
-/

namespace GandivaQC

/-- Arrow logical/physical types, as far as the compiler distinguishes them. -/
inductive PaType
  | int64
  | float64
  | boolTy
  | strTy
deriving DecidableEq

/-- Cell values: python/arrow scalars flowing through the query pipeline. -/
inductive PaValue
  | intV (i : Int)
  | ratV (q : ℚ)
  | boolV (b : Bool)
  | strV (s : String)
deriving DecidableEq

/-- The parsed pandas expression AST (pandas.core.computation.ops):
Constant, Term (field reference), BinOp, UnaryOp, MathCall.  Each
operator node carries the externally inferred return type
(`terms.return_type`, already converted by pa.from_numpy_dtype). -/
inductive Terms
  | constant (value : PaValue) (return_type : PaType)
  | term (name : String)
  | binOp (op : String) (lhs rhs : Terms) (return_type : PaType)
  | unaryOp (op : String) (operand : Terms) (return_type : PaType)
  | mathCall (op : String) (operands : List Terms) (return_type : PaType)

/-- Gandiva tree-expression nodes, the output of TreeExprBuilder calls. -/
inductive GNode
  | literal (value : PaValue) (ty : PaType)
  | field (name : String) (ty : PaType)
  | andNode (children : List GNode)
  | orNode (children : List GNode)
  | functionNode (name : String) (operands : List GNode) (return_type : PaType)

/-- The source's `unary_ops = {"~": "not"}` dict, as a lookup function. -/
def unary_ops (op : String) : Option String :=
  if op == "~" then some "not" else none

/-- The source's `math_calls` dict, as a lookup function. -/
def math_calls (op : String) : Option String :=
  if op == "log" then some "log"
  else if op == "exp" then some "exp"
  else if op == "log10" then some "log10"
  else if op == "cbrt" then some "cbrt"
  else none

/-- The source's `bin_ops` dict (arithmetic operators), as a lookup function. -/
def bin_ops (op : String) : Option String :=
  if op == "+" then some "add"
  else if op == "-" then some "subtract"
  else if op == "*" then some "multiply"
  else if op == "/" then some "divide"
  else if op == "**" then some "power"
  else none

/-- The source's `cmp_ops` dict literal lists `">": "greater_than"` twice;
a python dict literal keeps the last occurrence, and both occurrences map to
the same value, so the resulting dict is exactly this seven-key mapping
(the six comparisons plus "like"). -/
def cmp_ops (op : String) : Option String :=
  if op == "==" then some "equal"
  else if op == "!=" then some "not_equal"
  else if op == ">" then some "greater_than"
  else if op == "<" then some "less_than"
  else if op == "<=" then some "less_than_or_equal_to"
  else if op == ">=" then some "greater_than_or_equal_to"
  else if op == "like" then some "like"
  else none

/-- Errors the modelled pipeline can raise.  `invalidFilterRoot` is the
ValueError "Root operation should be a filter."; `typeMismatch` is the
`assert return_type == pa.bool_()` failure; `unsupportedTerm` is the
final `raise TypeError("Unsupported term type: ...")` fall-through;
`keyError` is a missing key in `unary_ops` / `math_calls`; `indexError`
is `table.to_batches()[0]` on a batchless table; `arrowError` stands for
a failing `pa.lib.take`. -/
inductive QError
  | invalidFilterRoot
  | unknownColumn
  | typeMismatch
  | unsupportedTerm
  | keyError
  | indexError
  | arrowError
deriving DecidableEq

/-- Schema: ordered association of column name to type
(`table.schema`; `field_by_name` is modelled by lookup). -/
abbrev Schema := List (String × PaType)

/-- field_by_name: first field with the given name, if any. -/
def fieldByName (schema : Schema) (name : String) : Option PaType :=
  match schema.find? (fun p => p.1 == name) with
  | some p => some p.2
  | none => none

mutual

/-- The source's `build_node(table, terms, builder)`: translate one AST node
into a gandiva tree node.  Branch order, the order in which children are
compiled, and the fall-through `raise TypeError` all mirror the python.
In the UnaryOp branch the python evaluates `unary_ops[terms.op]` before
compiling the operand (a KeyError fires first); in the MathCall branch the
operand list comprehension runs before `math_calls[terms.op]` is read. -/
def build_node (schema : Schema) : Terms → Except QError GNode
  | .constant v rt => .ok (.literal v rt)
  | .term name =>
    match fieldByName schema name with
    | some ty => .ok (.field name ty)
    | none => .error .unknownColumn
  | .binOp op l r rt => do
    let lnode ← build_node schema l
    let rnode ← build_node schema r
    if op == "&" then pure (.andNode [lnode, rnode])
    else if op == "|" then pure (.orNode [lnode, rnode])
    else
      match cmp_ops op with
      | some fn =>
        if rt = .boolTy then pure (.functionNode fn [lnode, rnode] rt)
        else .error .typeMismatch
      | none =>
        match bin_ops op with
        | some fn => pure (.functionNode fn [lnode, rnode] rt)
        | none => .error .unsupportedTerm
  | .unaryOp op x rt =>
    match unary_ops op with
    | none => .error .keyError
    | some fn => do
      let xnode ← build_node schema x
      pure (.functionNode fn [xnode] rt)
  | .mathCall op operands rt => do
    let children ← build_list schema operands
    match math_calls op with
    | none => .error .keyError
    | some fn => pure (.functionNode fn children rt)

/-- The operand list comprehension of the MathCall branch. -/
def build_list (schema : Schema) : List Terms → Except QError (List GNode)
  | [] => .ok []
  | t :: ts => do
    let n ← build_node schema t
    let ns ← build_list schema ts
    pure (n :: ns)

end

/-- The source's `can_be_condition(expr)`: the root is accepted when it is a
BinOp whose operator is a key of cmp_ops or one of "&", "|", or a UnaryOp
with operator "~". -/
def can_be_condition (terms : Terms) : Bool :=
  match terms with
  | .binOp op _ _ _ => (cmp_ops op).isSome || op == "&" || op == "|"
  | .unaryOp op _ _ => op == "~"
  | _ => false

/-- One column of a record batch: name, type, cell data. -/
structure PColumn where
  name : String
  ty : PaType
  data : List PaValue
deriving DecidableEq

/-- A record batch: an ordered list of equally long columns. -/
structure RecordBatch where
  cols : List PColumn
deriving DecidableEq

/-- The schema carried by a batch (names and types, in column order). -/
def RecordBatch.schemaOf (rb : RecordBatch) : Schema :=
  rb.cols.map (fun c => (c.name, c.ty))

/-- A pyarrow table: a schema plus the physical record batches
(`table.to_batches()`). -/
structure PTable where
  schema : Schema
  batches : List RecordBatch
deriving DecidableEq

/-- Sequential effectful map over a list in Option, modelling a python
list comprehension in which any failing element raises. -/
def optMapM (f : α → Option β) : List α → Option (List β)
  | [] => some []
  | a :: l => do
    let b ← f a
    let bs ← optMapM f l
    pure (b :: bs)

/-- `pa.lib.take(column, indices)`: gather the cells at the given indices;
an out-of-range index raises (modelled as none). -/
def paTake (xs : List α) (idx : List Nat) : Option (List α) :=
  optMapM (fun i => xs[i]?) idx

/-- Gathering every column of a batch at the selection indices. -/
def gatherCols (cols : List PColumn) (s : List Nat) : Option (List PColumn) :=
  optMapM (fun c => do
    let d ← paTake c.data s
    pure { name := c.name, ty := c.ty, data := d : PColumn }) cols

/-- The source's `filter_with_selection_vector(table, s)`: take the first
record batch of the table (`table.to_batches()[0]`, an IndexError when the
table has no batch), gather every column at the selection indices, and
rebuild a table from the gathered arrays and the batch's column names. -/
def filter_with_selection_vector (table : PTable) (s : List Nat) :
    Option PTable := do
  let record_batch ← table.batches.head?
  let new_columns ← gatherCols record_batch.cols s
  pure { schema := new_columns.map (fun c => (c.name, c.ty)),
         batches := [⟨new_columns⟩] }

/-- The source's `gandiva_query(table, query)`.  The externally parsed
expression arrives as `query : Terms`; gandiva's compiled-filter
evaluation over one record batch is the explicit parameter `evalFilter`
(the repository only ever feeds it `table.to_batches()[0]`). -/
def gandiva_query (evalFilter : GNode → RecordBatch → List Nat)
    (table : PTable) (query : Terms) : Except QError PTable :=
  if can_be_condition query then do
    let root ← build_node table.schema query
    match table.batches.head? with
    | none => .error .indexError
    | some rb =>
      let sel_vec := evalFilter root rb
      match filter_with_selection_vector table sel_vec with
      | none => .error .arrowError
      | some result => pure result
  else .error .invalidFilterRoot

/-- One column of a partition table on the sum path: name, type, and the
cell values of each physical chunk (`column.data.chunks`), numeric cells
modelled as exact rationals. -/
structure SColumn where
  name : String
  ty : PaType
  chunks : List (List ℚ)
deriving DecidableEq

/-- `pa.types.is_floating(t) or pa.types.is_integer(t)`. -/
def isNumericType (t : PaType) : Bool :=
  t == PaType.float64 || t == PaType.int64

/-- The source's remote task `sum_pyarrow_table(table)`: one pass over the
columns appending, for every numeric column, its name and a one-element
array `sum([chunk.sum() for chunk in column.data.chunks])` of the column's
own type; `pa.Table.from_arrays(arrays, names)` then zips them back into a
one-row table. -/
def sum_pyarrow_table (table : List SColumn) : List SColumn :=
  table.foldl
    (fun acc column =>
      if isNumericType column.ty then
        acc ++ [{ name := column.name, ty := column.ty,
                  chunks := [[(column.chunks.map List.sum).sum]] }]
      else acc)
    []

/-- Sequential effectful fold in Option, modelling a python loop whose body
may raise. -/
def optFoldl (f : s → α → Option s) : s → List α → Option s
  | init, [] => some init
  | init, a :: l =>
    match f init a with
    | none => none
    | some s' => optFoldl f s' l

/-- `sum_partition.columns[i].data[0].as_py()`: the first cell of the i-th
column of a gathered partial result (none models the IndexError when the
column or the cell is missing). -/
def colValue (p : List SColumn) (i : Nat) : Option ℚ :=
  match p[i]? with
  | none => none
  | some c =>
    match c.chunks with
    | [] => none
    | ch :: _ =>
      match ch with
      | [] => none
      | v :: _ => some v

/-- `accumulator[name] += v` on the accumulator dict. -/
def updAcc (acc : String → ℚ) (name : String) (v : ℚ) : String → ℚ :=
  fun m => if m = name then acc name + v else acc m

/-- The body of the double fold loop of GandivaQueryCompiler.sum for one
(position, name) pair: add every gathered partial result's i-th column
value to the accumulator entry of that name. -/
def acc_step (sum_partitions : List (List SColumn)) (acc : String → ℚ)
    (p : Nat × String) : Option (String → ℚ) :=
  optFoldl (fun a sp => (colValue sp p.1).map (fun v => updAcc a p.2 v))
    acc sum_partitions

/-- The accumulator of GandivaQueryCompiler.sum: `{name: 0.0 for name in
names}` followed by `for i, name in enumerate(names): for sum_partition in
sum_partitions: accumulator[name] += sum_partition.columns[i].data[0]`. -/
def sum_accumulator (names : List String) (sum_partitions : List (List SColumn)) :
    Option (String → ℚ) :=
  optFoldl (acc_step sum_partitions) (fun _ => (0 : ℚ)) names.enum

/-- Lines 181-191 of the source: read the column names off the first
gathered partial result, run the accumulator, and emit one array per name
typed with `sum_partitions[0].schema.field_by_name(name)`. -/
def fold_sum (sum_partitions : List (List SColumn)) : Option (List SColumn) := do
  let first ← sum_partitions.head?
  let names := first.map (fun c => c.name)
  let acc ← sum_accumulator names sum_partitions
  optMapM (fun name => do
    let c ← first.find? (fun d => d.name == name)
    pure { name := name, ty := c.ty, chunks := [[acc name]] : SColumn }) names

/-- GandivaQueryCompiler.sum over a 2-D partition grid of tables: a remote
`sum_pyarrow_table` task is submitted for every partition of the grid
(`new_partitions`, modelled as a pure map over every grid cell), but only
the first column-block `new_partitions[:,0]` is gathered and folded. -/
def GandivaQueryCompiler.sum (grid : List (List (List SColumn))) :
    Option (List SColumn) := do
  let new_partitions := grid.map (fun row_of_parts => row_of_parts.map sum_pyarrow_table)
  let sum_partitions ← optMapM List.head? new_partitions
  fold_sum sum_partitions

/-! Helper lemmas. -/

lemma ok_bind {ε α β : Type} (a : α) (f : α → Except ε β) :
    (Except.ok a : Except ε α) >>= f = f a := rfl

lemma error_bind {ε α β : Type} (e : ε) (f : α → Except ε β) :
    (Except.error e : Except ε α) >>= f = Except.error e := rfl

lemma some_bind_opt (a : α) (f : α → Option β) :
    (some a : Option α) >>= f = f a := rfl

lemma none_bind_opt (f : α → Option β) :
    (none : Option α) >>= f = none := rfl

lemma pure_bind_opt (a : α) (f : α → Option β) :
    (pure a : Option α) >>= f = f a := rfl

lemma optMapM_some_map (g : α → β) :
    ∀ l : List α, optMapM (fun a => some (g a)) l = some (l.map g)
  | [] => rfl
  | a :: l => by
    simp only [optMapM, optMapM_some_map g l, List.map_cons]
    rfl

lemma optMapM_congr {f g : α → Option β} :
    ∀ {l : List α}, (∀ a ∈ l, f a = g a) → optMapM f l = optMapM g l
  | [], _ => rfl
  | a :: l, h => by
    simp only [optMapM, h a (List.mem_cons_self a l),
      optMapM_congr (fun b hb => h b (List.mem_cons_of_mem a hb))]

lemma optMapM_map (f : β → Option γ) (g : α → β) :
    ∀ l : List α, optMapM f (l.map g) = optMapM (fun a => f (g a)) l
  | [] => rfl
  | a :: l => by simp only [List.map_cons, optMapM, optMapM_map f g l]

lemma gatherCols_nil :
    ∀ cols : List PColumn,
      gatherCols cols [] = some (cols.map (fun c => ⟨c.name, c.ty, []⟩))
  | [] => rfl
  | c :: cs => by
    have ih := gatherCols_nil cs
    simp only [gatherCols, optMapM] at ih ⊢
    rw [ih]
    rfl

lemma build_binOp_cmp (schema : Schema) (op fn : String) (l r : Terms)
    (ln rn : GNode) (hop : cmp_ops op = some fn)
    (hand : (op == "&") = false) (hor : (op == "|") = false)
    (hl : build_node schema l = .ok ln) (hr : build_node schema r = .ok rn)
    (rt : PaType) :
    build_node schema (.binOp op l r rt)
      = if rt = .boolTy then .ok (.functionNode fn [ln, rn] rt)
        else .error .typeMismatch := by
  simp only [build_node]
  rw [hl, ok_bind, hr, ok_bind, hand, hor, hop]
  rfl

lemma build_binOp_unsupported (schema : Schema) (op : String) (l r : Terms)
    (ln rn : GNode)
    (hand : (op == "&") = false) (hor : (op == "|") = false)
    (hcmp : cmp_ops op = none) (hbin : bin_ops op = none)
    (hl : build_node schema l = .ok ln) (hr : build_node schema r = .ok rn)
    (rt : PaType) :
    build_node schema (.binOp op l r rt) = .error .unsupportedTerm := by
  simp only [build_node]
  rw [hl, ok_bind, hr, ok_bind, hand, hor, hcmp, hbin]
  rfl

lemma cmp_ops_eq_none {op : String}
    (h : op ∉ (["==", "!=", ">", "<", "<=", ">=", "like"] : List String)) :
    cmp_ops op = none := by
  simp only [List.mem_cons, List.not_mem_nil, or_false, not_or] at h
  obtain ⟨h1, h2, h3, h4, h5, h6, h7⟩ := h
  simp only [cmp_ops, beq_iff_eq]
  rw [if_neg h1, if_neg h2, if_neg h3, if_neg h4, if_neg h5, if_neg h6, if_neg h7]

lemma bin_ops_eq_none {op : String}
    (h : op ∉ (["+", "-", "*", "/", "**"] : List String)) :
    bin_ops op = none := by
  simp only [List.mem_cons, List.not_mem_nil, or_false, not_or] at h
  obtain ⟨h1, h2, h3, h4, h5⟩ := h
  simp only [bin_ops, beq_iff_eq]
  rw [if_neg h1, if_neg h2, if_neg h3, if_neg h4, if_neg h5]

mutual

theorem build_node_ne_root (schema : Schema) :
    (t : Terms) → build_node schema t ≠ .error .invalidFilterRoot
  | .constant v rt => by simp [build_node]
  | .term name => by
    cases hf : fieldByName schema name <;> simp [build_node, hf]
  | .binOp op l r rt => by
    intro h
    simp only [build_node] at h
    cases hl : build_node schema l with
    | error e =>
      rw [hl, error_bind] at h
      injection h with he
      subst he
      exact build_node_ne_root schema l hl
    | ok ln =>
      rw [hl, ok_bind] at h
      cases hr : build_node schema r with
      | error e =>
        rw [hr, error_bind] at h
        injection h with he
        subst he
        exact build_node_ne_root schema r hr
      | ok rn =>
        rw [hr, ok_bind] at h
        by_cases hA : (op == "&") = true
        · rw [if_pos hA] at h
          exact Except.noConfusion h
        rw [if_neg hA] at h
        by_cases hB : (op == "|") = true
        · rw [if_pos hB] at h
          exact Except.noConfusion h
        rw [if_neg hB] at h
        cases hc : cmp_ops op with
        | some fn =>
          rw [hc] at h
          by_cases hrt : rt = .boolTy
          · simp [hrt, pure, Except.pure] at h
          · simp [hrt, pure, Except.pure] at h
        | none =>
          rw [hc] at h
          cases hb : bin_ops op with
          | some fn =>
            rw [hb] at h
            simp [pure, Except.pure] at h
          | none =>
            rw [hb] at h
            simp at h
  | .unaryOp op x rt => by
    intro h
    cases hu : unary_ops op with
    | none =>
      simp [build_node, hu] at h
    | some fn =>
      cases hx : build_node schema x with
      | error e =>
        simp [build_node, hu, hx, error_bind] at h
        exact build_node_ne_root schema x (by rw [hx, h])
      | ok xn =>
        simp [build_node, hu, hx, ok_bind, pure, Except.pure] at h
  | .mathCall op operands rt => by
    intro h
    cases hc : build_list schema operands with
    | error e =>
      simp [build_node, hc, error_bind] at h
      exact build_list_ne_root schema operands (by rw [hc, h])
    | ok children =>
      cases hm : math_calls op with
      | none =>
        simp [build_node, hc, ok_bind, hm] at h
      | some fn =>
        simp [build_node, hc, ok_bind, hm, pure, Except.pure] at h

theorem build_list_ne_root (schema : Schema) :
    (ts : List Terms) → build_list schema ts ≠ .error .invalidFilterRoot
  | [] => by simp [build_list]
  | t :: ts => by
    intro h
    simp only [build_list] at h
    cases ht : build_node schema t with
    | error e =>
      rw [ht, error_bind] at h
      injection h with he
      subst he
      exact build_node_ne_root schema t ht
    | ok n =>
      rw [ht, ok_bind] at h
      cases hts : build_list schema ts with
      | error e =>
        rw [hts, error_bind] at h
        injection h with he
        subst he
        exact build_list_ne_root schema ts hts
      | ok ns =>
        rw [hts, ok_bind] at h
        exact Except.noConfusion h

end

/-- The root shape accepted by the code, written out as the explicit
operator enumeration: the six comparisons, "like", the two connectives,
or unary negation. -/
def root_is_predicate_shaped (q : Terms) : Bool :=
  match q with
  | .binOp op _ _ _ =>
    (["==", "!=", ">", "<", "<=", ">=", "like", "&", "|"] : List String).contains op
  | .unaryOp op _ _ => op == "~"
  | _ => false

/-- The root shape in the words of the specification: a BinaryOp whose
operator is one of the six comparisons or a logical connective, or a
UnaryOp with the negation operator.  (Unlike the code's cmp_ops dict,
this does not include "like".) -/
def spec_condition_shaped (q : Terms) : Bool :=
  match q with
  | .binOp op _ _ _ =>
    (["==", "!=", ">", "<", "<=", ">=", "&", "|"] : List String).contains op
  | .unaryOp op _ _ => op == "~"
  | _ => false

lemma can_be_condition_eq_shape (q : Terms) :
    can_be_condition q = root_is_predicate_shaped q := by
  cases q with
  | binOp op l r rt =>
    simp only [can_be_condition, root_is_predicate_shaped]
    by_cases h1 : op = "=="
    · subst h1; rfl
    by_cases h2 : op = "!="
    · subst h2; rfl
    by_cases h3 : op = ">"
    · subst h3; rfl
    by_cases h4 : op = "<"
    · subst h4; rfl
    by_cases h5 : op = "<="
    · subst h5; rfl
    by_cases h6 : op = ">="
    · subst h6; rfl
    by_cases h7 : op = "like"
    · subst h7; rfl
    by_cases h8 : op = "&"
    · subst h8; rfl
    by_cases h9 : op = "|"
    · subst h9; rfl
    simp [cmp_ops, h1, h2, h3, h4, h5, h6, h7, h8, h9]
  | unaryOp op x rt => rfl
  | constant v rt => rfl
  | term name => rfl
  | mathCall op operands rt => rfl

/-! Claim theorems. -/

/-- Claim C1, amended: building the filter fails with InvalidFilterRoot
if and only if the expression's root is not predicate-shaped as the CODE
defines it — a BinaryOp whose operator is a key of the cmp_ops dict (the
six comparisons plus "like") or a connective "&", "|", or a UnaryOp with
operator "~".  In particular a bare arithmetic root such as a + b fails
with InvalidFilterRoot for every table and every evaluation engine, so no
filter program is compiled or evaluated for it.  (The claim as stated,
with "comparison" meaning only the six comparisons, is refuted by the
"like" operator; see the counterexample.) -/
theorem c1_root_validation :
    (∀ (evalFilter : GNode → RecordBatch → List Nat) (table : PTable) (q : Terms),
        gandiva_query evalFilter table q = .error .invalidFilterRoot ↔
          root_is_predicate_shaped q = false) ∧
    (∀ (evalFilter : GNode → RecordBatch → List Nat) (table : PTable)
        (a b : Terms) (rt : PaType),
        gandiva_query evalFilter table (.binOp "+" a b rt)
          = .error .invalidFilterRoot) := by
  constructor
  · intro evalF table q
    rw [← can_be_condition_eq_shape]
    constructor
    · intro h
      by_contra hne
      rw [Bool.not_eq_false] at hne
      unfold gandiva_query at h
      rw [hne, if_pos rfl] at h
      cases hb : build_node table.schema q with
      | error e =>
        rw [hb, error_bind] at h
        injection h with he
        exact build_node_ne_root table.schema q (by rw [hb, he])
      | ok root =>
        rw [hb, ok_bind] at h
        cases tb : table.batches with
        | nil => rw [tb] at h; simp at h
        | cons b0 rest =>
          rw [tb] at h
          simp only [List.head?_cons] at h
          cases hf : filter_with_selection_vector table (evalF root b0) with
          | none => simp [hf] at h
          | some result => simp [hf, pure, Except.pure] at h
    · intro h
      unfold gandiva_query
      rw [h]
      rfl
  · intro evalF table a b rt
    rfl

/-- Claim C1 counterexample: an expression whose root is the BinaryOp
"like" — which is neither one of the six comparisons, nor a logical
connective, nor unary negation, so the claim as stated requires
InvalidFilterRoot — is accepted by the code and the query succeeds. -/
theorem c1_counterexample :
    spec_condition_shaped
        (.binOp "like" (.term "a") (.constant (.strV "x") .strTy) .boolTy)
      = false ∧
    gandiva_query (fun _ _ => [])
        ⟨[("a", .strTy)], [⟨[⟨"a", .strTy, [.strV "u"]⟩]⟩]⟩
        (.binOp "like" (.term "a") (.constant (.strV "x") .strTy) .boolTy)
      = .ok ⟨[("a", .strTy)], [⟨[⟨"a", .strTy, []⟩]⟩]⟩ :=
  ⟨rfl, rfl⟩

/-- Claim C2: for every BinOp whose operator is one of the six
comparisons, the compiler asserts the inferred return type is boolean
(TypeMismatch otherwise) and emits the corresponding comparison function
call — equal, not_equal, greater_than, less_than, less_than_or_equal_to,
greater_than_or_equal_to — with operands the compiled left and right
children; in particular ">=" compiles to greater_than_or_equal_to. -/
theorem c2_comparison_compilation (op fn : String)
    (hmem : (op, fn) ∈ ([("==", "equal"), ("!=", "not_equal"),
        (">", "greater_than"), ("<", "less_than"),
        ("<=", "less_than_or_equal_to"),
        (">=", "greater_than_or_equal_to")] : List (String × String)))
    (schema : Schema) (l r : Terms) (ln rn : GNode)
    (hl : build_node schema l = .ok ln) (hr : build_node schema r = .ok rn) :
    build_node schema (.binOp op l r .boolTy)
      = .ok (.functionNode fn [ln, rn] .boolTy) ∧
    ∀ rt : PaType, rt ≠ .boolTy →
      build_node schema (.binOp op l r rt) = .error .typeMismatch := by
  have hcase : cmp_ops op = some fn ∧ (op == "&") = false ∧ (op == "|") = false := by
    simp only [List.mem_cons, List.not_mem_nil, or_false, Prod.mk.injEq] at hmem
    rcases hmem with ⟨rfl, rfl⟩ | ⟨rfl, rfl⟩ | ⟨rfl, rfl⟩ | ⟨rfl, rfl⟩ |
      ⟨rfl, rfl⟩ | ⟨rfl, rfl⟩ <;> exact ⟨rfl, rfl, rfl⟩
  obtain ⟨hop, hand, hor⟩ := hcase
  refine ⟨?_, ?_⟩
  · rw [build_binOp_cmp schema op fn l r ln rn hop hand hor hl hr .boolTy,
      if_pos rfl]
  · intro rt hrt
    rw [build_binOp_cmp schema op fn l r ln rn hop hand hor hl hr rt,
      if_neg hrt]

/-- Claim C2 witness: on schema a:int64, the comparison a >= 3 with
boolean return type compiles to greater_than_or_equal_to applied to
the field and the literal; with non-boolean return type it fails with
TypeMismatch. -/
theorem c2_witness :
    build_node [("a", .int64)]
        (.binOp ">=" (.term "a") (.constant (.intV 3) .int64) .boolTy)
      = .ok (.functionNode "greater_than_or_equal_to"
          [.field "a" .int64, .literal (.intV 3) .int64] .boolTy) ∧
    build_node [("a", .int64)]
        (.binOp ">=" (.term "a") (.constant (.intV 3) .int64) .int64)
      = .error .typeMismatch := by
  have h := c2_comparison_compilation ">=" "greater_than_or_equal_to"
    (by decide) [("a", .int64)] (.term "a") (.constant (.intV 3) .int64)
    (.field "a" .int64) (.literal (.intV 3) .int64) rfl rfl
  exact ⟨h.1, h.2 .int64 (by decide)⟩

/-- Claim C5, amended: a BinOp whose operator is not a connective, not a
key of cmp_ops (the six comparisons plus "like"), and not one of the five
arithmetic operators falls through every branch and fails with the
unsupported-term TypeError; but "like", although not a connective, not
one of the six comparisons, and not arithmetic, is compiled into the
"like" function call rather than failing. -/
theorem c5_unsupported_operator :
    (∀ (op : String) (schema : Schema) (l r : Terms) (rt : PaType)
        (ln rn : GNode),
      op ≠ "&" → op ≠ "|" →
      op ∉ (["==", "!=", ">", "<", "<=", ">=", "like"] : List String) →
      op ∉ (["+", "-", "*", "/", "**"] : List String) →
      build_node schema l = .ok ln → build_node schema r = .ok rn →
      build_node schema (.binOp op l r rt) = .error .unsupportedTerm) ∧
    (∀ (schema : Schema) (l r : Terms) (ln rn : GNode),
      build_node schema l = .ok ln → build_node schema r = .ok rn →
      build_node schema (.binOp "like" l r .boolTy)
        = .ok (.functionNode "like" [ln, rn] .boolTy)) := by
  constructor
  · intro op schema l r rt ln rn hand hor hcmp hbin hl hr
    exact build_binOp_unsupported schema op l r ln rn
      (beq_eq_false_iff_ne.mpr hand) (beq_eq_false_iff_ne.mpr hor)
      (cmp_ops_eq_none hcmp) (bin_ops_eq_none hbin) hl hr rt
  · intro schema l r ln rn hl hr
    rw [build_binOp_cmp schema "like" "like" l r ln rn rfl rfl rfl hl hr
      .boolTy, if_pos rfl]

/-- Claim C5 counterexample: "like" is not a logical connective, not one
of the six comparisons, and not one of the five arithmetic operators, so
by the claim it must fail with UnsupportedOperator — yet the code
compiles it into a function call. -/
theorem c5_counterexample :
    ("like" ∉ (["&", "|"] : List String) ∧
     "like" ∉ (["==", "!=", ">", "<", "<=", ">="] : List String) ∧
     "like" ∉ (["+", "-", "*", "/", "**"] : List String)) ∧
    build_node [("a", .strTy)]
        (.binOp "like" (.term "a") (.constant (.strV "x") .strTy) .boolTy)
      = .ok (.functionNode "like"
          [.field "a" .strTy, .literal (.strV "x") .strTy] .boolTy) :=
  ⟨⟨by decide, by decide, by decide⟩, rfl⟩

/-- Claim C5 witness: the operator "%" (not a connective, comparison,
"like", or arithmetic operator) fails with the unsupported-term error. -/
theorem c5_witness :
    build_node [("a", .int64)]
        (.binOp "%" (.term "a") (.constant (.intV 2) .int64) .int64)
      = .error .unsupportedTerm :=
  c5_unsupported_operator.1 "%" [("a", .int64)] (.term "a")
    (.constant (.intV 2) .int64) .int64 (.field "a" .int64)
    (.literal (.intV 2) .int64) (by decide) (by decide) (by decide)
    (by decide) rfl rfl

/-- Claim C7: applying an empty selection vector to a table chunk yields
a zero-row table with the chunk's column names and types in the same
order (identical schema), and never raises: the result is always `some`,
with every column's data empty. -/
theorem c7_empty_selection (schema : Schema) (b : RecordBatch)
    (rest : List RecordBatch) :
    filter_with_selection_vector ⟨schema, b :: rest⟩ []
      = some ⟨b.schemaOf, [⟨b.cols.map (fun c => ⟨c.name, c.ty, []⟩)⟩]⟩ := by
  rw [show filter_with_selection_vector ⟨schema, b :: rest⟩ []
      = (gatherCols b.cols []).bind
          (fun nc => some ⟨nc.map (fun c => (c.name, c.ty)), [⟨nc⟩]⟩) from rfl]
  rw [gatherCols_nil]
  simp [RecordBatch.schemaOf, List.map_map]

/-- Claim C9: the filter pipeline evaluates the compiled predicate only
against the first record batch and gathers only from the first record
batch's columns, so the result over a multi-batch table is identical to
the result over the table truncated to its first batch — rows of any
later batch never appear. -/
theorem c9_first_batch_only (evalFilter : GNode → RecordBatch → List Nat)
    (schema : Schema) (b0 : RecordBatch) (rest : List RecordBatch)
    (q : Terms) :
    gandiva_query evalFilter ⟨schema, b0 :: rest⟩ q
      = gandiva_query evalFilter ⟨schema, [b0]⟩ q := rfl

lemma foldl_if_append (p : α → Bool) (f : α → β) :
    ∀ (l : List α) (a : List β),
      l.foldl (fun acc c => if p c then acc ++ [f c] else acc) a
        = a ++ (l.filter p).map f
  | [], a => by simp
  | c :: l, a => by
    simp only [List.foldl_cons]
    cases hp : p c
    · simp [hp, foldl_if_append p f l, List.filter_cons]
    · simp [hp, foldl_if_append p f l, List.filter_cons]

/-- Claim C4: the per-partition partial-sum task keeps exactly the
columns whose type is integer or floating, in their original relative
order, each reduced to one row holding the sum over all chunks of the
chunk-local sums; non-numeric columns are entirely absent. -/
theorem c4_partial_sum (table : List SColumn) :
    sum_pyarrow_table table
      = (table.filter (fun c => isNumericType c.ty)).map
          (fun c => ⟨c.name, c.ty, [[(c.chunks.map List.sum).sum]]⟩) ∧
    ∀ c ∈ sum_pyarrow_table table, isNumericType c.ty = true := by
  have h1 : sum_pyarrow_table table
      = (table.filter (fun c => isNumericType c.ty)).map
          (fun c => ⟨c.name, c.ty, [[(c.chunks.map List.sum).sum]]⟩) := by
    unfold sum_pyarrow_table
    simpa using foldl_if_append (fun c => isNumericType c.ty)
      (fun c => (⟨c.name, c.ty, [[(c.chunks.map List.sum).sum]]⟩ : SColumn))
      table []
  refine ⟨h1, ?_⟩
  intro c hc
  rw [h1] at hc
  simp only [List.mem_map, List.mem_filter] at hc
  obtain ⟨c0, ⟨_, hnum⟩, rfl⟩ := hc
  exact hnum

/-- Claim C4 witness: a partition with a string column and an int64
column of chunks [1,2] and [3] reduces to the single numeric column x
with value 6; the string column is absent, and the emitted column is
numeric. -/
theorem c4_witness :
    sum_pyarrow_table [⟨"s", .strTy, [[1]]⟩, ⟨"x", .int64, [[1, 2], [3]]⟩]
      = [⟨"x", .int64, [[6]]⟩] ∧
    isNumericType (PaType.int64) = true := by
  have h := c4_partial_sum [⟨"s", .strTy, [[1]]⟩, ⟨"x", .int64, [[1, 2], [3]]⟩]
  have heval : sum_pyarrow_table
      [⟨"s", .strTy, [[1]]⟩, ⟨"x", .int64, [[1, 2], [3]]⟩]
      = [⟨"x", .int64, [[6]]⟩] := by
    rw [h.1]
    rw [show List.filter (fun c => isNumericType c.ty)
        [⟨"s", .strTy, [[1]]⟩, ⟨"x", .int64, [[1, 2], [3]]⟩]
        = [(⟨"x", .int64, [[1, 2], [3]]⟩ : SColumn)] from by decide]
    norm_num
  have hnum := h.2 ⟨"x", .int64, [[6]]⟩
    (by rw [heval]; exact List.mem_singleton.mpr rfl)
  exact ⟨heval, hnum⟩

lemma head?_map_take1 (f : α → β) (r : List α) :
    ((r.take 1).map f).head? = (r.map f).head? := by
  cases r <;> rfl

/-- Claim C3: the sum reduction computes a partial sum for every
partition of the 2-D grid but gathers and folds only the grid's first
column-block — the result is unchanged if every row of the grid is
truncated to its first partition — and on a single-column-block grid
whose two partitions hold column x with values [1,2] and [3,4], the
reduced sum for x is 10 with x's original type. -/
theorem c3_sum_reduction :
    (∀ grid : List (List (List SColumn)),
        GandivaQueryCompiler.sum grid
          = GandivaQueryCompiler.sum (grid.map (fun row => row.take 1))) ∧
    GandivaQueryCompiler.sum
        [[[⟨"x", .int64, [[1, 2]]⟩]], [[⟨"x", .int64, [[3, 4]]⟩]]]
      = some [⟨"x", .int64, [[10]]⟩] := by
  constructor
  · intro grid
    show (optMapM List.head?
        (grid.map (fun row_of_parts => row_of_parts.map sum_pyarrow_table))).bind
          fold_sum
      = (optMapM List.head?
          ((grid.map (fun row => row.take 1)).map
            (fun row_of_parts => row_of_parts.map sum_pyarrow_table))).bind
          fold_sum
    congr 1
    rw [optMapM_map, optMapM_map, optMapM_map]
    exact (optMapM_congr (l := grid)
      (fun r _ => head?_map_take1 sum_pyarrow_table r)).symm
  · norm_num [GandivaQueryCompiler.sum, optMapM, fold_sum, sum_accumulator,
      optFoldl, acc_step, colValue, updAcc, sum_pyarrow_table, isNumericType,
      List.enum, List.enumFrom]

lemma paTake_getElem? (xs : List α) :
    ∀ (s1 : List Nat) (ys : List α), paTake xs s1 = some ys →
      ∀ i : Nat, ys[i]? = (s1[i]?.bind (fun j => xs[j]?))
  | [], ys, h, i => by
    simp only [paTake, optMapM] at h
    injection h with h'
    subst h'
    simp
  | j :: rest, ys, h, i => by
    simp only [paTake, optMapM] at h
    cases hj : xs[j]? with
    | none => rw [hj, none_bind_opt] at h; exact Option.noConfusion h
    | some v =>
      rw [hj, some_bind_opt] at h
      cases hrest : optMapM (fun k => xs[k]?) rest with
      | none => rw [hrest, none_bind_opt] at h; exact Option.noConfusion h
      | some vs =>
        rw [hrest, some_bind_opt] at h
        injection h with h'
        subst h'
        cases i with
        | zero => simp [hj]
        | succ n =>
          simp only [List.getElem?_cons_succ]
          exact paTake_getElem? xs rest vs hrest n

lemma paTake_comp (xs : List α) (s1 : List Nat) (ys : List α)
    (h1 : paTake xs s1 = some ys) :
    ∀ (s2 s12 : List Nat), paTake s1 s2 = some s12 →
      paTake ys s2 = paTake xs s12
  | [], s12, h2 => by
    simp only [paTake, optMapM] at h2
    injection h2 with h'
    subst h'
    rfl
  | i :: rest, s12, h2 => by
    simp only [paTake, optMapM] at h2
    cases hji : s1[i]? with
    | none => rw [hji, none_bind_opt] at h2; exact Option.noConfusion h2
    | some j =>
      rw [hji, some_bind_opt] at h2
      cases hrest : optMapM (fun k => s1[k]?) rest with
      | none => rw [hrest, none_bind_opt] at h2; exact Option.noConfusion h2
      | some rest12 =>
        rw [hrest, some_bind_opt] at h2
        injection h2 with h'
        subst h'
        simp only [paTake, optMapM]
        rw [paTake_getElem? xs s1 ys h1 i, hji]
        rw [show (some j).bind (fun k => xs[k]?) = xs[j]? from rfl]
        have ih := paTake_comp xs s1 ys h1 rest rest12 hrest
        simp only [paTake] at ih
        rw [ih]

lemma gatherCols_comp (s1 s2 s12 : List Nat) (h2 : paTake s1 s2 = some s12) :
    ∀ (cols cols1 : List PColumn), gatherCols cols s1 = some cols1 →
      gatherCols cols1 s2 = gatherCols cols s12
  | [], cols1, h1 => by
    simp only [gatherCols, optMapM] at h1
    injection h1 with h'
    subst h'
    rfl
  | c :: cs, cols1, h1 => by
    simp only [gatherCols, optMapM] at h1
    cases hd : paTake c.data s1 with
    | none => rw [hd, none_bind_opt, none_bind_opt] at h1; exact Option.noConfusion h1
    | some d =>
      rw [hd, some_bind_opt, pure_bind_opt] at h1
      cases hcs : optMapM (fun c => do
          let d ← paTake c.data s1
          pure ({ name := c.name, ty := c.ty, data := d } : PColumn)) cs with
      | none => rw [hcs, none_bind_opt] at h1; exact Option.noConfusion h1
      | some cs1 =>
        rw [hcs, some_bind_opt] at h1
        injection h1 with h'
        subst h'
        simp only [gatherCols, optMapM]
        rw [paTake_comp c.data s1 d hd s2 s12 h2]
        have ih := gatherCols_comp s1 s2 s12 h2 cs cs1 hcs
        simp only [gatherCols, optMapM] at ih
        rw [ih]

/-- Claim C8: re-selecting from a selected table composes by index
composition — if s1 is valid for the table and s2 is valid for the
s1-filtered result (encoded by the hypotheses that the gathers succeed,
with s12 the gather of s1 at s2, i.e. the list of s1-values at the s2
indices), then apply(apply(table, s1), s2) = apply(table, s12). -/
theorem c8_selection_composition (table : PTable) (s1 s2 s12 : List Nat)
    (t1 : PTable) (h1 : filter_with_selection_vector table s1 = some t1)
    (h2 : paTake s1 s2 = some s12) :
    filter_with_selection_vector t1 s2
      = filter_with_selection_vector table s12 := by
  unfold filter_with_selection_vector at h1
  cases hb : table.batches.head? with
  | none => rw [hb, none_bind_opt] at h1; exact Option.noConfusion h1
  | some rb =>
    rw [hb, some_bind_opt] at h1
    cases hg : gatherCols rb.cols s1 with
    | none => rw [hg, none_bind_opt] at h1; exact Option.noConfusion h1
    | some nc =>
      rw [hg, some_bind_opt] at h1
      injection h1 with h1'
      subst h1'
      unfold filter_with_selection_vector
      rw [hb, some_bind_opt]
      rw [show (PTable.mk (nc.map (fun c => (c.name, c.ty))) [⟨nc⟩]).batches.head?
          = some ⟨nc⟩ from rfl]
      rw [some_bind_opt]
      rw [show (⟨nc⟩ : RecordBatch).cols = nc from rfl]
      rw [gatherCols_comp s1 s2 s12 h2 rb.cols nc hg]

/-- Claim C8 witness: on a one-column table with rows 10, 20, 30,
selecting [2,0] and then [1] equals selecting the composed index list
[0], namely the one-row table holding 10. -/
theorem c8_witness :
    filter_with_selection_vector
        ⟨[("c", .int64)], [⟨[⟨"c", .int64, [.intV 30, .intV 10]⟩]⟩]⟩ [1]
      = filter_with_selection_vector
          ⟨[("c", .int64)],
            [⟨[⟨"c", .int64, [.intV 10, .intV 20, .intV 30]⟩]⟩]⟩ [0] ∧
    filter_with_selection_vector
        ⟨[("c", .int64)], [⟨[⟨"c", .int64, [.intV 10, .intV 20, .intV 30]⟩]⟩]⟩
        [0]
      = some ⟨[("c", .int64)], [⟨[⟨"c", .int64, [.intV 10]⟩]⟩]⟩ := by
  refine ⟨?_, by decide⟩
  exact c8_selection_composition
    ⟨[("c", .int64)], [⟨[⟨"c", .int64, [.intV 10, .intV 20, .intV 30]⟩]⟩]⟩
    [2, 0] [1] [0]
    ⟨[("c", .int64)], [⟨[⟨"c", .int64, [.intV 30, .intV 10]⟩]⟩]⟩
    (by decide) (by decide)

lemma acc_step_eq (i : Nat) (n : String) :
    ∀ (sps : List (List SColumn)) (acc : String → ℚ),
      acc_step sps acc (i, n)
        = (optMapM (fun p => colValue p i) sps).map
            (fun vs => fun m => if m = n then acc n + vs.sum else acc m)
  | [], acc => by
    simp only [acc_step, optFoldl, optMapM, Option.map_some']
    refine congrArg some ?_
    funext m
    by_cases hm : m = n
    · subst hm; simp
    · simp [hm]
  | sp :: sps, acc => by
    cases hv : colValue sp i with
    | none =>
      simp [acc_step, optFoldl, optMapM, hv]
    | some v =>
      have ih := acc_step_eq i n sps (updAcc acc n v)
      simp only [acc_step, optFoldl, optMapM, hv, Option.map_some',
        some_bind_opt] at ih ⊢
      rw [ih]
      cases hrest : optMapM (fun p => colValue p i) sps with
      | none => simp [hrest]
      | some vs =>
        simp only [hrest, Option.map_some', some_bind_opt, pure_bind_opt]
        refine congrArg some ?_
        funext m
        by_cases hm : m = n
        · subst hm
          simp only [updAcc, eq_self_iff_true, if_true, List.sum_cons]
          ring
        · simp only [updAcc]
          rw [if_neg hm, if_neg hm, if_neg hm]

lemma acc_step_untouched (sps : List (List SColumn)) (j : Nat) (m : String)
    (acc acc' : String → ℚ) (h : acc_step sps acc (j, m) = some acc')
    (n : String) (hn : m ≠ n) : acc' n = acc n := by
  rw [acc_step_eq j m sps acc] at h
  cases hvs : optMapM (fun p => colValue p j) sps with
  | none => rw [hvs] at h; exact Option.noConfusion h
  | some vs =>
    rw [hvs, Option.map_some'] at h
    injection h with h'
    rw [← h']
    show (if n = m then acc m + vs.sum else acc n) = acc n
    rw [if_neg (Ne.symm hn)]

lemma outer_untouched (sps : List (List SColumn)) (n : String) :
    ∀ (L : List (Nat × String)) (acc accF : String → ℚ),
      (∀ p ∈ L, p.2 ≠ n) →
      optFoldl (acc_step sps) acc L = some accF → accF n = acc n
  | [], acc, accF, _, h => by
    simp only [optFoldl] at h
    injection h with h'
    exact (congrFun h' n).symm
  | (j, m) :: L, acc, accF, hne, h => by
    cases hs : acc_step sps acc (j, m) with
    | none => simp [optFoldl, hs] at h
    | some acc1 =>
      simp only [optFoldl, hs] at h
      have e1 : acc1 n = acc n :=
        acc_step_untouched sps j m acc acc1 hs n
          (hne (j, m) (List.mem_cons_self _ _))
      have e2 := outer_untouched sps n L acc1 accF
        (fun p hp => hne p (List.mem_cons_of_mem _ hp)) h
      rw [e2, e1]

lemma outer_main (sps : List (List SColumn)) (i : Nat) (n : String) :
    ∀ (L : List (Nat × String)) (acc accF : String → ℚ),
      (i, n) ∈ L →
      (∀ p ∈ L, p.2 = n → p = (i, n)) →
      (L.map Prod.fst).Nodup →
      optFoldl (acc_step sps) acc L = some accF →
      ∃ vs, optMapM (fun p => colValue p i) sps = some vs ∧
        accF n = acc n + vs.sum
  | [], _, _, hmem, _, _, _ => absurd hmem (List.not_mem_nil _)
  | (j, m) :: L, acc, accF, hmem, huniq, hnd, h => by
    cases hs : acc_step sps acc (j, m) with
    | none => simp [optFoldl, hs] at h
    | some acc1 =>
      simp only [optFoldl, hs] at h
      by_cases hm : m = n
      · have hpair : ((j, m) : Nat × String) = (i, n) :=
          huniq (j, m) (List.mem_cons_self _ _) hm
        have hji : j = i := congrArg Prod.fst hpair
        subst hji
        subst hm
        have hnotin : (j : Nat) ∉ L.map Prod.fst := by
          simp only [List.map_cons] at hnd
          exact (List.nodup_cons.mp hnd).1
        have hrest_ne : ∀ p ∈ L, p.2 ≠ m := by
          intro p hp hpn
          have hpin : p = (j, m) := huniq p (List.mem_cons_of_mem _ hp) hpn
          exact hnotin (by
            rw [hpin] at hp
            exact List.mem_map_of_mem Prod.fst hp)
        have huntouched := outer_untouched sps m L acc1 accF hrest_ne h
        rw [acc_step_eq j m sps acc] at hs
        cases hvs : optMapM (fun p => colValue p j) sps with
        | none => rw [hvs] at hs; exact Option.noConfusion hs
        | some vs =>
          rw [hvs, Option.map_some'] at hs
          injection hs with hs'
          refine ⟨vs, rfl, ?_⟩
          rw [huntouched, ← hs']
          simp only [eq_self_iff_true, if_true]
      · have e1 : acc1 n = acc n := acc_step_untouched sps j m acc acc1 hs n hm
        have hmem' : (i, n) ∈ L := by
          rcases List.mem_cons.mp hmem with heq | h'
          · exact absurd (congrArg Prod.snd heq).symm hm
          · exact h'
        obtain ⟨vs, hvs, hsum⟩ := outer_main sps i n L acc1 accF hmem'
          (fun p hp hpn => huniq p (List.mem_cons_of_mem _ hp) hpn)
          (by simp only [List.map_cons] at hnd
              exact (List.nodup_cons.mp hnd).2) h
        exact ⟨vs, hvs, by rw [hsum, e1]⟩

/-- Claim C10: the fold of GandivaQueryCompiler.sum pairs columns
positionally — with the gathered names Nodup, the final accumulator
value at the i-th name of the first gathered result is the sum of the
i-th column value of every gathered result, whatever its name there —
and on two partial results carrying the same names a, b in opposite
orders the totals land under the wrong names: positionally a gets
1 + 10 = 11 and b gets 2 + 20 = 22, while the by-name sums would be
21 and 12. -/
theorem c10_positional_fold :
    (∀ (names : List String) (sps : List (List SColumn)) (acc : String → ℚ),
      names.Nodup → sum_accumulator names sps = some acc →
      ∀ i : Fin names.length,
        ∃ vs, optMapM (fun p => colValue p i.1) sps = some vs ∧
          acc (names.get i) = vs.sum) ∧
    (sum_accumulator ["a", "b"]
        [[⟨"a", .float64, [[1]]⟩, ⟨"b", .float64, [[2]]⟩],
         [⟨"b", .float64, [[10]]⟩, ⟨"a", .float64, [[20]]⟩]]).map
      (fun acc => (acc "a", acc "b")) = some (11, 22) := by
  constructor
  · intro names sps acc hnd hacc i
    have hmem : (i.1, names.get i) ∈ names.enum := by
      rw [List.mk_mem_enum_iff_getElem?]
      rw [List.getElem?_eq_getElem i.2]
      rfl
    have huniq : ∀ p ∈ names.enum, p.2 = names.get i →
        p = (i.1, names.get i) := by
      intro p hp hpn
      rw [List.mem_enum_iff_getElem?] at hp
      obtain ⟨hlt, hget⟩ := List.getElem?_eq_some.mp hp
      have hgi : names.get ⟨p.1, hlt⟩ = names.get i := by
        have hg2 : names.get ⟨p.1, hlt⟩ = p.2 := hget
        rw [hg2, hpn]
      have hidx : (⟨p.1, hlt⟩ : Fin names.length) = i :=
        (hnd.get_inj_iff).mp hgi
      have hp1 : p.1 = i.1 := congrArg Fin.val hidx
      cases p with
      | mk a b => exact Prod.ext hp1 hpn
    obtain ⟨vs, hvs, hsum⟩ := outer_main sps i.1 (names.get i) names.enum
      (fun _ => 0) acc hmem huniq (List.nodup_enum_map_fst names) hacc
    exact ⟨vs, hvs, by rw [hsum, zero_add]⟩
  · norm_num [sum_accumulator, optFoldl, acc_step, colValue, updAcc,
      optMapM, List.enum, List.enumFrom]
    simp
    norm_num

/-- Claim C10 witness: applying the positional fold equation to the
misordered pair of partial results — names ["a", "b"] are Nodup, the
accumulator exists, and position 0 collects the first column of each
gathered result — gives acc "a" = 1 + 10 = 11 even though the second
result's first column is named "b". -/
theorem c10_witness :
    ∃ acc, sum_accumulator ["a", "b"]
        [[⟨"a", .float64, [[1]]⟩, ⟨"b", .float64, [[2]]⟩],
         [⟨"b", .float64, [[10]]⟩, ⟨"a", .float64, [[20]]⟩]] = some acc ∧
      acc "a" = 11 := by
  refine ⟨_, rfl, ?_⟩
  obtain ⟨vs, hvs, hsum⟩ := c10_positional_fold.1 ["a", "b"]
    [[⟨"a", .float64, [[1]]⟩, ⟨"b", .float64, [[2]]⟩],
     [⟨"b", .float64, [[10]]⟩, ⟨"a", .float64, [[20]]⟩]] _
    (by decide) rfl ⟨0, by decide⟩
  have hvs' : vs = [1, 10] := by
    have : (some vs : Option (List ℚ)) = some [1, 10] := by rw [← hvs]; rfl
    injection this
  rw [show (["a", "b"].get ⟨0, by decide⟩) = "a" from rfl] at hsum
  rw [hsum, hvs']
  norm_num

lemma optMapM_out (first : List SColumn) (acc : String → ℚ) :
    ∀ (names : List String) (out : List SColumn),
      optMapM (fun name => do
        let c ← first.find? (fun d => d.name == name)
        pure ({ name := name, ty := c.ty, chunks := [[acc name]] } : SColumn))
        names = some out →
      out.map (fun c => c.name) = names ∧
      ∀ c ∈ out, (∃ c0, first.find? (fun d => d.name == c.name) = some c0 ∧
        c.ty = c0.ty) ∧ c.chunks = [[acc c.name]]
  | [], out, h => by
    simp only [optMapM] at h
    injection h with h'
    subst h'
    exact ⟨rfl, fun c hc => absurd hc (List.not_mem_nil c)⟩
  | nm :: names, out, h => by
    simp only [optMapM] at h
    cases hf : first.find? (fun d => d.name == nm) with
    | none =>
      rw [hf, none_bind_opt, none_bind_opt] at h
      exact Option.noConfusion h
    | some c0 =>
      rw [hf, some_bind_opt, pure_bind_opt] at h
      cases hrest : optMapM (fun name => do
          let c ← first.find? (fun d => d.name == name)
          pure ({ name := name, ty := c.ty, chunks := [[acc name]] } : SColumn))
          names with
      | none => rw [hrest, none_bind_opt] at h; exact Option.noConfusion h
      | some out' =>
        rw [hrest, some_bind_opt] at h
        injection h with h'
        subst h'
        have ih := optMapM_out first acc names out' hrest
        constructor
        · simp only [List.map_cons]
          rw [ih.1]
        · intro c hc
          rcases List.mem_cons.mp hc with rfl | hc'
          · exact ⟨⟨c0, hf, rfl⟩, rfl⟩
          · exact ih.2 c hc'

/-- Claim C6: when the fold succeeds, the result is a single-row table
whose column order equals the column order of the first gathered partial
result, whose i-th column's type is the type recorded for that name in
the first gathered partial result (the source column's original physical
type, since sum_pyarrow_table preserves column types), and whose values
are the final accumulator totals. -/
theorem c6_sum_output (sps : List (List SColumn)) (first : List SColumn)
    (acc : String → ℚ) (out : List SColumn)
    (hfirst : sps.head? = some first)
    (hacc : sum_accumulator (first.map (fun c => c.name)) sps = some acc)
    (hout : fold_sum sps = some out) :
    out.map (fun c => c.name) = first.map (fun c => c.name) ∧
    ∀ c ∈ out, (∃ c0, first.find? (fun d => d.name == c.name) = some c0 ∧
      c.ty = c0.ty) ∧ c.chunks = [[acc c.name]] := by
  unfold fold_sum at hout
  rw [hfirst, some_bind_opt] at hout
  have hout' : (sum_accumulator (first.map (fun c => c.name)) sps).bind
      (fun acc' => optMapM (fun name => do
        let c ← first.find? (fun d => d.name == name)
        pure ({ name := name, ty := c.ty, chunks := [[acc' name]] } : SColumn))
        (first.map (fun c => c.name))) = some out := hout
  rw [hacc] at hout'
  rw [show (some acc).bind (fun acc' => optMapM (fun name => do
        let c ← first.find? (fun d => d.name == name)
        pure ({ name := name, ty := c.ty, chunks := [[acc' name]] } : SColumn))
        (first.map (fun c => c.name)))
      = optMapM (fun name => do
        let c ← first.find? (fun d => d.name == name)
        pure ({ name := name, ty := c.ty, chunks := [[acc name]] } : SColumn))
        (first.map (fun c => c.name)) from rfl] at hout'
  exact optMapM_out first acc (first.map (fun c => c.name)) out hout'

/-- Claim C6 witness: two gathered partial results for an int64 column a
with values 5 and 7 fold to the one-row table a = 12 that keeps the
int64 type of the first gathered result rather than a float column. -/
theorem c6_witness :
    ∃ (acc : String → ℚ) (out : List SColumn),
      sum_accumulator ["a"]
        [[⟨"a", .int64, [[5]]⟩], [⟨"a", .int64, [[7]]⟩]] = some acc ∧
      fold_sum [[⟨"a", .int64, [[5]]⟩], [⟨"a", .int64, [[7]]⟩]] = some out ∧
      out.map (fun c => c.name) = ["a"] ∧
      (∀ c ∈ out, (∃ c0, [(⟨"a", .int64, [[5]]⟩ : SColumn)].find?
          (fun d => d.name == c.name) = some c0 ∧ c.ty = c0.ty) ∧
        c.chunks = [[acc c.name]]) ∧
      out = [⟨"a", .int64, [[12]]⟩] := by
  obtain ⟨h1, h2⟩ := c6_sum_output
    [[⟨"a", .int64, [[5]]⟩], [⟨"a", .int64, [[7]]⟩]]
    [⟨"a", .int64, [[5]]⟩] _ _ rfl rfl rfl
  refine ⟨_, _, rfl, rfl, h1, h2, ?_⟩
  norm_num [updAcc]

end GandivaQC
